import Mathlib

/-!
Verification of the actuarial demo data generators (policies, claims,
reserves).  The three generator functions are shallowly embedded over ℚ:
every pseudorandom draw the Python code takes from the seeded global
generator is threaded explicitly as an input (a per-row draw record), so
each generator is a pure function of its counts and its draw stream.
Money amounts are rationals; `round(x, n)` is embedded as round-half-even
at scale `10^n`, matching Python's `round`.
-/

namespace Actuarial

/-! ### Rounding: Python `round(x, n)` on rationals -/

/-- Round-half-even to an integer (the tie-breaking rule of Python's
`round`): nearest integer, ties to the even neighbour. -/
def rhe (x : ℚ) : ℤ :=
  if Int.fract x < 1/2 then ⌊x⌋
  else if 1/2 < Int.fract x then ⌊x⌋ + 1
  else if 2 ∣ ⌊x⌋ then ⌊x⌋ else ⌊x⌋ + 1

/-- Embedding of Python `round(x, n)` with `s = 10^n`: scale, round half
to even, unscale. -/
def rnd (s : ℕ) (x : ℚ) : ℚ := (rhe (x * s) : ℚ) / s

/-- A rational that is a whole number of cents, i.e. a value already
rounded to 2 decimals (the grid all money columns live on). -/
def Cents (x : ℚ) : Prop := ∃ n : ℤ, x = (n : ℚ) / 100

theorem rhe_intCast (n : ℤ) : rhe (n : ℚ) = n := by
  unfold rhe
  rw [Int.fract_intCast, Int.floor_intCast]
  norm_num

theorem floor_le_rhe (x : ℚ) : ⌊x⌋ ≤ rhe x := by
  unfold rhe
  split_ifs <;> omega

theorem rhe_le_floor_add_one (x : ℚ) : rhe x ≤ ⌊x⌋ + 1 := by
  unfold rhe
  split_ifs <;> omega

theorem rhe_le_of_le_int {x : ℚ} {n : ℤ} (h : x ≤ (n : ℚ)) : rhe x ≤ n := by
  rcases eq_or_lt_of_le h with h' | h'
  · rw [h', rhe_intCast]
  · have h1 : ⌊x⌋ < n := by
      have h2 : (⌊x⌋ : ℚ) < (n : ℚ) := lt_of_le_of_lt (Int.floor_le x) h'
      exact_mod_cast h2
    have h3 := rhe_le_floor_add_one x
    omega

theorem int_le_rhe_of_le {x : ℚ} {n : ℤ} (h : (n : ℚ) ≤ x) : n ≤ rhe x := by
  have h1 : n ≤ ⌊x⌋ := Int.le_floor.mpr h
  have h2 := floor_le_rhe x
  omega

theorem rhe_nonneg {x : ℚ} (h : 0 ≤ x) : 0 ≤ rhe x := by
  have h1 := floor_le_rhe x
  have h0 : (0 : ℤ) ≤ ⌊x⌋ := Int.floor_nonneg.mpr h
  omega

theorem rhe_cast_le (x : ℚ) : (rhe x : ℚ) ≤ x + 1/2 := by
  have hfr : (⌊x⌋ : ℚ) + Int.fract x = x := Int.floor_add_fract x
  have h0 : 0 ≤ Int.fract x := Int.fract_nonneg x
  unfold rhe
  split_ifs with h1 h2 h3
  · linarith
  · push_cast
    linarith
  · linarith
  · have h4 : Int.fract x = 1/2 := le_antisymm (not_lt.mp h2) (not_lt.mp h1)
    push_cast
    linarith

/-- Rounding a value that is already on the target grid is the identity. -/
theorem rnd_fix {s : ℕ} (hs : 0 < s) {x : ℚ} (h : ∃ n : ℤ, x = (n : ℚ) / s) :
    rnd s x = x := by
  obtain ⟨n, rfl⟩ := h
  have hs' : (s : ℚ) ≠ 0 := Nat.cast_ne_zero.mpr hs.ne'
  have h1 : (n : ℚ) / s * s = (n : ℚ) := div_mul_cancel₀ _ hs'
  rw [rnd, h1, rhe_intCast]

theorem cents_rnd100 (x : ℚ) : Cents (rnd 100 x) := ⟨rhe (x * 100), by norm_num [rnd]⟩

theorem rnd100_cents_fix {x : ℚ} (h : Cents x) : rnd 100 x = x := by
  refine rnd_fix (by norm_num) ?_
  obtain ⟨n, rfl⟩ := h
  exact ⟨n, by norm_num⟩

theorem cents_zero : Cents 0 := ⟨0, by norm_num⟩

theorem cents_add {x y : ℚ} (hx : Cents x) (hy : Cents y) : Cents (x + y) := by
  obtain ⟨n, rfl⟩ := hx
  obtain ⟨m, rfl⟩ := hy
  exact ⟨n + m, by push_cast; ring⟩

theorem cents_sub {x y : ℚ} (hx : Cents x) (hy : Cents y) : Cents (x - y) := by
  obtain ⟨n, rfl⟩ := hx
  obtain ⟨m, rfl⟩ := hy
  exact ⟨n - m, by push_cast; ring⟩

theorem cents_neg {x : ℚ} (hx : Cents x) : Cents (-x) := by
  obtain ⟨n, rfl⟩ := hx
  exact ⟨-n, by push_cast; ring⟩

theorem cents_abs {x : ℚ} (hx : Cents x) : Cents |x| := by
  rcases abs_cases x with ⟨h, _⟩ | ⟨h, _⟩
  · rw [h]; exact hx
  · rw [h]; exact cents_neg hx

/-- A positive cents value is at least one cent. -/
theorem cents_pos_ge {x : ℚ} (hx : Cents x) (h : 0 < x) : 1/100 ≤ x := by
  obtain ⟨n, rfl⟩ := hx
  have h1 : (0 : ℚ) < n := by
    by_contra h2
    push_neg at h2
    have : (n : ℚ) / 100 ≤ 0 := div_nonpos_of_nonpos_of_nonneg h2 (by norm_num)
    linarith
  have h2 : (1 : ℚ) ≤ n := by exact_mod_cast (by exact_mod_cast h1 : (0 : ℤ) < n)
  calc (1:ℚ)/100 ≤ (n:ℚ)/100 := (div_le_div_iff_of_pos_right (by norm_num)).mpr h2
    _ = _ := rfl

/-- Rounding to cents never exceeds an on-grid upper bound of the argument. -/
theorem rnd100_le_of_le_cents {x y : ℚ} (hy : Cents y) (h : x ≤ y) :
    rnd 100 x ≤ y := by
  obtain ⟨n, rfl⟩ := hy
  have h1 : x * 100 ≤ (n : ℚ) := by
    have := mul_le_mul_of_nonneg_right h (by norm_num : (0:ℚ) ≤ 100)
    calc x * 100 ≤ (n : ℚ) / 100 * 100 := this
      _ = n := div_mul_cancel₀ _ (by norm_num)
  have h2 : rhe (x * 100) ≤ n := rhe_le_of_le_int h1
  have h3 : (rhe (x * 100) : ℚ) ≤ (n : ℚ) := by exact_mod_cast h2
  rw [rnd]
  push_cast
  exact (div_le_div_iff_of_pos_right (by norm_num)).mpr h3

theorem rnd100_nonneg {x : ℚ} (h : 0 ≤ x) : 0 ≤ rnd 100 x := by
  have h1 : (0 : ℤ) ≤ rhe (x * 100) := rhe_nonneg (by positivity)
  rw [rnd]
  positivity

/-- The rounded value exceeds the argument by at most half a cent. -/
theorem rnd100_le_add_half_cent (x : ℚ) : rnd 100 x ≤ x + 1/200 := by
  have h1 : (rhe (x * 100) : ℚ) ≤ x * 100 + 1/2 := rhe_cast_le (x * 100)
  have h2 : (rhe (x * 100) : ℚ) / 100 ≤ (x * 100 + 1/2) / 100 :=
    (div_le_div_iff_of_pos_right (by norm_num)).mpr h1
  have h3 : (x * 100 + 1/2) / 100 = x + 1/200 := by ring
  rw [rnd]
  push_cast
  linarith

end Actuarial

namespace Actuarial

/-! ### Enumerated string columns

The generators draw `line_of_business` and `geography` from fixed string
lists.  They are embedded as enums; `rank` gives each code's position in
the ascending lexicographic (byte-wise) order of the underlying strings,
which is the order the cohort grouping sorts by. -/

/-- Lines of business: Motor, Property, Life, Health, Pension. -/
inductive LoB
  | Motor | Property | Life | Health | Pension
deriving DecidableEq, Repr

/-- Lexicographic position of the line-of-business name
(Health < Life < Motor < Pension < Property). -/
def LoB.rank : LoB → ℕ
  | .Health => 0
  | .Life => 1
  | .Motor => 2
  | .Pension => 3
  | .Property => 4

/-- Geography codes drawn by the generators. -/
inductive Geo
  | CA | TX | FL | NY | IL | PA | OH | GA | NC | MI | Other
deriving DecidableEq, Repr

/-- Lexicographic position of the geography code
(CA < FL < GA < IL < MI < NC < NY < OH < Other < PA < TX;
the two-letter prefix OH sorts before Other). -/
def Geo.rank : Geo → ℕ
  | .CA => 0
  | .FL => 1
  | .GA => 2
  | .IL => 3
  | .MI => 4
  | .NC => 5
  | .NY => 6
  | .OH => 7
  | .Other => 8
  | .PA => 9
  | .TX => 10

theorem lobRank_injective : ∀ a b : LoB, a.rank = b.rank → a = b := by
  intro a b
  cases a <;> cases b <;> simp [LoB.rank]

theorem geoRank_injective : ∀ a b : Geo, a.rank = b.rank → a = b := by
  intro a b
  cases a <;> cases b <;> simp [Geo.rank]

/-! ### Calendar dates

`datetime` dates are embedded as year/month/day triples with the Gregorian
leap rule; `timedelta(days=n)` is `addDays`, iterated day-successor. -/

/-- Gregorian leap year test. -/
def isLeap (y : ℕ) : Bool := (y % 4 == 0 && y % 100 != 0) || y % 400 == 0

/-- Days in a month of a given year (months 1..12). -/
def daysInMonth (y m : ℕ) : ℕ :=
  if m = 2 then (if isLeap y then 29 else 28)
  else if m = 4 ∨ m = 6 ∨ m = 9 ∨ m = 11 then 30
  else 31

structure Date where
  year : ℕ
  month : ℕ
  day : ℕ
deriving DecidableEq, Repr

/-- A calendar-valid date. -/
def Date.Valid (dt : Date) : Prop :=
  1 ≤ dt.month ∧ dt.month ≤ 12 ∧ 1 ≤ dt.day ∧ dt.day ≤ daysInMonth dt.year dt.month

instance (dt : Date) : Decidable dt.Valid := by
  unfold Date.Valid
  infer_instance

/-- Successor day, rolling over month and year ends. -/
def nextDay (dt : Date) : Date :=
  if dt.day < daysInMonth dt.year dt.month then ⟨dt.year, dt.month, dt.day + 1⟩
  else if dt.month < 12 then ⟨dt.year, dt.month + 1, 1⟩
  else ⟨dt.year + 1, 1, 1⟩

/-- Embedding of `date + timedelta(days=n)`. -/
def addDays (dt : Date) : ℕ → Date
  | 0 => dt
  | n + 1 => addDays (nextDay dt) n

/-- Month counter used to compare dates month-wise:
`(year*12 + month)` strictly increases across month boundaries. -/
def monthIdx (dt : Date) : ℕ := dt.year * 12 + dt.month

/-- Date order (lexicographic on year, month, day). -/
def dateLe (a b : Date) : Prop :=
  a.year < b.year ∨ (a.year = b.year ∧
    (a.month < b.month ∨ (a.month = b.month ∧ a.day ≤ b.day)))

instance (a b : Date) : Decidable (dateLe a b) := by
  unfold dateLe
  infer_instance

theorem daysInMonth_pos (y m : ℕ) : 1 ≤ daysInMonth y m := by
  unfold daysInMonth
  split_ifs <;> omega

theorem nextDay_valid {dt : Date} (h : dt.Valid) : (nextDay dt).Valid := by
  obtain ⟨h1, h2, h3, h4⟩ := h
  unfold nextDay
  split_ifs with hd hm
  · refine ⟨?_, ?_, ?_, ?_⟩ <;> dsimp only <;> omega
  · refine ⟨?_, ?_, ?_, ?_⟩ <;> dsimp only
    · omega
    · omega
    · omega
    · exact daysInMonth_pos _ _
  · refine ⟨?_, ?_, ?_, ?_⟩ <;> dsimp only
    · omega
    · omega
    · omega
    · exact daysInMonth_pos _ _

theorem addDays_valid {dt : Date} (h : dt.Valid) (n : ℕ) : (addDays dt n).Valid := by
  induction n generalizing dt with
  | zero => exact h
  | succ m ih => exact ih (nextDay_valid h)

theorem monthIdx_le_nextDay {dt : Date} (h : dt.Valid) :
    monthIdx dt ≤ monthIdx (nextDay dt) := by
  obtain ⟨h1, h2, h3, h4⟩ := h
  unfold nextDay monthIdx
  split_ifs <;> dsimp only <;> omega

theorem monthIdx_le_addDays {dt : Date} (h : dt.Valid) (n : ℕ) :
    monthIdx dt ≤ monthIdx (addDays dt n) := by
  induction n generalizing dt with
  | zero => exact le_refl _
  | succ m ih =>
      exact le_trans (monthIdx_le_nextDay h) (ih (nextDay_valid h))

theorem addDays_add (dt : Date) (a b : ℕ) :
    addDays dt (a + b) = addDays (addDays dt a) b := by
  induction a generalizing dt with
  | zero =>
      rw [Nat.zero_add]
      rfl
  | succ m ih =>
      have h1 : m + 1 + b = (m + b) + 1 := by omega
      rw [h1]
      show addDays (nextDay dt) (m + b) = _
      rw [ih (nextDay dt)]
      rfl

/-- Month index is monotone in the number of added days. -/
theorem monthIdx_mono {dt : Date} (h : dt.Valid) {n1 n2 : ℕ} (hn : n1 ≤ n2) :
    monthIdx (addDays dt n1) ≤ monthIdx (addDays dt n2) := by
  obtain ⟨k, rfl⟩ := Nat.exists_eq_add_of_le hn
  rw [addDays_add]
  exact monthIdx_le_addDays (addDays_valid h n1) k

theorem dateLe_nextDay (dt : Date) : dateLe dt (nextDay dt) := by
  unfold nextDay dateLe
  split_ifs <;> dsimp only <;> omega

theorem dateLe_trans {a b c : Date} (h1 : dateLe a b) (h2 : dateLe b c) :
    dateLe a c := by
  unfold dateLe at *
  omega

theorem dateLe_addDays (dt : Date) (n : ℕ) : dateLe dt (addDays dt n) := by
  induction n generalizing dt with
  | zero =>
      show dateLe dt dt
      unfold dateLe
      omega
  | succ m ih => exact dateLe_trans (dateLe_nextDay dt) (ih (nextDay dt))

end Actuarial

namespace Actuarial

/-! ### Claims Development Generator (claims.py)

Each claim row is a pure function of its per-row draw record, which
packages the values the Python code takes from the seeded generator:
policy pick, accident year/month/day, report delay (already truncated to
whole days and clipped to [0, 365]), log-normal initial-reserve draw,
bucketed development-factor draw, Beta payment-pattern draw, and the
categorical line-of-business / geography picks.  Claim cause, claim
number and the JSON attribute blob feed no verified claim and are
omitted from the row. -/

inductive CStatus
  | Closed | Opened | Reserved
deriving DecidableEq, Repr

structure ClaimDraws where
  policyPick : ℕ
  accYear : ℕ
  accMonth : ℕ
  accDay : ℕ
  reportDelay : ℕ
  initialDraw : ℚ
  devFactorDraw : ℚ
  payPattern : ℚ
  lob : LoB
  geo : Geo
deriving DecidableEq, Repr

/-- Ranges the sampling distributions guarantee for each claim draw:
month from `randint(1, 13)`, day from `randint(1, 29)`, delay from an
exponential clipped to `[0, 365]`, a positive log-normal initial reserve,
and a Beta(2,5) payment fraction in `[0, 1]`. -/
def ClaimDraws.Ok (d : ClaimDraws) : Prop :=
  1 ≤ d.accMonth ∧ d.accMonth ≤ 12 ∧ 1 ≤ d.accDay ∧ d.accDay ≤ 28 ∧
  d.reportDelay ≤ 365 ∧ 0 < d.initialDraw ∧ 0 ≤ d.payPattern ∧ d.payPattern ≤ 1

structure Claim where
  claim_id : ℕ
  policy_id : ℕ
  accident_date : Date
  report_date : Date
  accident_year : ℕ
  development_month : ℤ
  line_of_business : LoB
  geography : Geo
  claim_status : CStatus
  initial_reserve : ℚ
  paid_amount : ℚ
  outstanding_reserve : ℚ
  incurred_amount : ℚ
deriving DecidableEq, Repr

/-- One claim row, mirroring the per-row computation of
`generate_claims`: report date is accident date plus the delay,
development month is the whole-month difference plus one floored at one,
incurred is the initial reserve times the development factor floored at
0.1, paid is incurred times the payment fraction, outstanding is
`max(0, incurred - paid)`, and status is bucketed from outstanding at
thresholds 10 and 1000. -/
def mkClaim (cid : ℕ) (d : ClaimDraws) : Claim :=
  let acc : Date := ⟨d.accYear, d.accMonth, d.accDay⟩
  let rep : Date := addDays acc d.reportDelay
  let months : ℤ := ((rep.year : ℤ) - acc.year) * 12 + ((rep.month : ℤ) - acc.month)
  let initial : ℚ := rnd 100 d.initialDraw
  let developed : ℚ := rnd 100 (initial * max (1/10) d.devFactorDraw)
  let paid : ℚ := rnd 100 (developed * d.payPattern)
  let outst : ℚ := max 0 (developed - paid)
  { claim_id := cid
    policy_id := d.policyPick
    accident_date := acc
    report_date := rep
    accident_year := acc.year
    development_month := max 1 (months + 1)
    line_of_business := d.lob
    geography := d.geo
    claim_status :=
      if outst ≤ 10 then .Closed else if outst ≤ 1000 then .Opened else .Reserved
    initial_reserve := initial
    paid_amount := paid
    outstanding_reserve := outst
    incurred_amount := developed }

set_option linter.unusedVariables false in
/-- Embedding of `generate_claims(policy_count, total_claims)`: claim ids
run 1..total_claims; `policy_count` only bounds the policy-id draw, which
the draw record carries. -/
def generate_claims (policy_count total_claims : ℕ) (d : ℕ → ClaimDraws) :
    List Claim :=
  (List.range total_claims).map (fun i => mkClaim (i + 1) (d i))

theorem generate_claims_length (p t : ℕ) (d : ℕ → ClaimDraws) :
    (generate_claims p t d).length = t := by
  simp [generate_claims]

theorem generate_claims_get (p t : ℕ) (d : ℕ → ClaimDraws) (i : ℕ) (h : i < t) :
    (generate_claims p t d).get ⟨i, by simpa [generate_claims] using h⟩ =
      mkClaim (i + 1) (d i) := by
  simp [generate_claims]

/-! ### Policy Sampler (policies.py)

The policy row keeps the fields the claims reference and those with a
verified property: sequential id, line of business, geography, sum
insured (a per-line log-normal draw rounded to cents) and premium (a
uniform 2-8% fraction of the rounded sum insured, rounded to cents).
Dates, demographics and the risk-factor JSON blob feed no verified claim
and are omitted.  The function performs no validation of its count. -/

structure PolicyDraws where
  siDraw : ℚ
  premRate : ℚ
  lob : LoB
  geo : Geo
deriving DecidableEq, Repr

structure Policy where
  policy_id : ℕ
  line_of_business : LoB
  geography : Geo
  sum_insured : ℚ
  premium : ℚ
deriving DecidableEq, Repr

def mkPolicy (pid : ℕ) (d : PolicyDraws) : Policy :=
  let si : ℚ := rnd 100 d.siDraw
  { policy_id := pid
    line_of_business := d.lob
    geography := d.geo
    sum_insured := si
    premium := rnd 100 (si * d.premRate) }

/-- Embedding of `generate_policies(count)`: ids 1..count, one row per
id, no count validation anywhere in the function body. -/
def generate_policies (count : ℕ) (d : ℕ → PolicyDraws) : List Policy :=
  (List.range count).map (fun i => mkPolicy (i + 1) (d i))

end Actuarial

namespace Actuarial

/-! ### Reserve/CSM Engine (reserves.py)

`generate_reserves` groups the claims table by
(line_of_business, geography, accident_year).  Pandas `groupby` sorts
the group keys in ascending lexicographic order and emits one aggregate
row per distinct key; the embedding builds the same key list with a
duplicate-dropping ordered insertion. -/

structure CKey where
  lob : LoB
  geo : Geo
  year : ℕ
deriving DecidableEq, Repr

/-- Strict lexicographic order on cohort keys, via the string ranks of
the enum codes. -/
def keyLt (a b : CKey) : Prop :=
  a.lob.rank < b.lob.rank ∨ (a.lob.rank = b.lob.rank ∧
    (a.geo.rank < b.geo.rank ∨ (a.geo.rank = b.geo.rank ∧ a.year < b.year)))

instance (a b : CKey) : Decidable (keyLt a b) := by
  unfold keyLt
  infer_instance

theorem keyLt_irrefl (a : CKey) : ¬keyLt a a := by
  unfold keyLt
  omega

theorem keyLt_trans {a b c : CKey} (h1 : keyLt a b) (h2 : keyLt b c) :
    keyLt a c := by
  unfold keyLt at *
  omega

theorem keyLt_total {a b : CKey} (h1 : ¬a = b) (h2 : ¬keyLt a b) : keyLt b a := by
  obtain ⟨al, ag, ay⟩ := a
  obtain ⟨bl, bg, yb⟩ := b
  have hl := lobRank_injective al bl
  have hg := geoRank_injective ag bg
  unfold keyLt at *
  dsimp at *
  have h3 : al.rank ≠ bl.rank ∨ ag.rank ≠ bg.rank ∨ ay ≠ yb := by
    by_contra hc
    push_neg at hc
    exact h1 (by rw [hl hc.1, hg hc.2.1, hc.2.2])
  omega

/-- Ordered duplicate-dropping insertion into a key list. -/
def insertKey (k : CKey) : List CKey → List CKey
  | [] => [k]
  | k' :: ks =>
      if k = k' then k' :: ks
      else if keyLt k k' then k :: k' :: ks
      else k' :: insertKey k ks

/-- The distinct keys of a list, in ascending `keyLt` order — the key
spine pandas `groupby(..., sort=True)` produces. -/
def dedupSort (ks : List CKey) : List CKey := ks.foldr insertKey []

theorem mem_insertKey (a k : CKey) (l : List CKey) :
    a ∈ insertKey k l ↔ a = k ∨ a ∈ l := by
  induction l with
  | nil => simp [insertKey]
  | cons k' ks ih =>
      unfold insertKey
      split_ifs with h1 h2
      · subst h1
        simp only [List.mem_cons]
        tauto
      · simp only [List.mem_cons]
      · simp only [List.mem_cons, ih]
        tauto

theorem pairwise_insertKey {k : CKey} {l : List CKey}
    (h : l.Pairwise keyLt) : (insertKey k l).Pairwise keyLt := by
  induction l with
  | nil => simp [insertKey]
  | cons k' ks ih =>
      rw [List.pairwise_cons] at h
      obtain ⟨hall, htail⟩ := h
      unfold insertKey
      split_ifs with h1 h2
      · exact List.pairwise_cons.mpr ⟨hall, htail⟩
      · refine List.pairwise_cons.mpr ⟨?_, List.pairwise_cons.mpr ⟨hall, htail⟩⟩
        intro a ha
        rcases List.mem_cons.mp ha with rfl | ha'
        · exact h2
        · exact keyLt_trans h2 (hall a ha')
      · refine List.pairwise_cons.mpr ⟨?_, ih htail⟩
        intro a ha
        rcases (mem_insertKey a k ks).mp ha with rfl | ha'
        · exact keyLt_total h1 h2
        · exact hall a ha'

theorem pairwise_dedupSort (ks : List CKey) : (dedupSort ks).Pairwise keyLt := by
  induction ks with
  | nil => simp [dedupSort]
  | cons k ks ih => exact pairwise_insertKey ih

theorem mem_dedupSort (a : CKey) (ks : List CKey) :
    a ∈ dedupSort ks ↔ a ∈ ks := by
  induction ks with
  | nil => simp [dedupSort]
  | cons k ks ih =>
      show a ∈ insertKey k (dedupSort ks) ↔ _
      rw [mem_insertKey, ih]
      exact (List.mem_cons).symm

theorem nodup_dedupSort (ks : List CKey) : (dedupSort ks).Nodup := by
  refine (pairwise_dedupSort ks).imp ?_
  intro a b h
  intro hab
  exact keyLt_irrefl a (hab ▸ h)

end Actuarial

namespace Actuarial

/-! ### Cohort rows -/

inductive PClass
  | Profitable | Onerous
deriving DecidableEq, Repr

/-- Per-cohort draw record: the values `generate_reserves` takes from the
seeded generator for one cohort row.  The present-value factor
`(1 + rate) ** (-duration)` passes the real-valued duration draw through
a transcendental power, so the embedding carries the resulting factor
`pvFactor` as the sampled input; the coverage-month draw `covMonths` is
the `randint` outcome whose range (12-60, 120-480 or 240-600 months)
depends on the line of business.  The quarters-back draw feeds only the
valuation date, which no verified claim touches. -/
structure CohortDraws where
  pvFactor : ℚ
  premiumRatio : ℚ
  riskRate : ℚ
  acqRate : ℚ
  covMonths : ℕ
  remainingRatio : ℚ
deriving DecidableEq, Repr

/-- Ranges the sampling distributions guarantee for each cohort draw:
a positive present-value factor at most one (positive rate, duration
floored at 0.5), `uniform(1.10, 1.20)` premium ratio,
`uniform(0.05, 0.15)` risk-adjustment rate, `uniform(0.10, 0.25)`
acquisition-cost rate, at least 12 coverage months, and a
`uniform(0.5, 1.0)` remaining ratio. -/
def CohortDraws.Ok (d : CohortDraws) : Prop :=
  0 < d.pvFactor ∧ d.pvFactor ≤ 1 ∧
  11/10 ≤ d.premiumRatio ∧ d.premiumRatio < 6/5 ∧
  1/20 ≤ d.riskRate ∧ d.riskRate < 3/20 ∧
  1/10 ≤ d.acqRate ∧ d.acqRate < 1/4 ∧
  12 ≤ d.covMonths ∧ d.covMonths < 600 ∧
  1/2 ≤ d.remainingRatio ∧ d.remainingRatio < 1

structure Cohort where
  line_of_business : LoB
  geography : Geo
  cohort_year : ℕ
  policy_count : ℕ
  claim_count : ℕ
  total_incurred : ℚ
  total_paid : ℚ
  total_outstanding : ℚ
  pv_factor : ℚ
  pv_claims : ℚ
  pv_premiums : ℚ
  risk_adjustment : ℚ
  acquisition_costs : ℚ
  initial_csm : ℚ
  loss_component : ℚ
  profitability_class : PClass
  coverage_units_total : ℕ
  coverage_units_current : ℕ
  csm_amortization : ℚ
  best_estimate_liability : ℚ
  liability_remaining_coverage : ℚ
  reserve_adequacy_ratio : ℚ
deriving DecidableEq, Repr

/-- Cohort key of a claim row. -/
def ckey (c : Claim) : CKey := ⟨c.line_of_business, c.geography, c.accident_year⟩

/-- One cohort row: the groupby aggregates over the claims matching the
key, then the derived IFRS-17 columns exactly as `generate_reserves`
computes them.  The premium present value scales the UNROUNDED claims
present value, while the risk adjustment and acquisition costs scale the
already-rounded columns, as in the source.  The valuation date and the
JSON metadata blob feed no verified claim and are omitted. -/
def mkCohort (k : CKey) (claims : List Claim) (d : CohortDraws) : Cohort :=
  let grp := claims.filter (fun c => ckey c = k)
  let policy_count := (grp.map (fun c => c.policy_id)).dedup.length
  let total_incurred := (grp.map (fun c => c.incurred_amount)).sum
  let total_paid := (grp.map (fun c => c.paid_amount)).sum
  let total_outstanding := (grp.map (fun c => c.outstanding_reserve)).sum
  let pv_claims_raw := total_incurred * d.pvFactor
  let pv_claims := rnd 100 pv_claims_raw
  let pv_premiums := rnd 100 (pv_claims_raw * d.premiumRatio)
  let risk_adjustment := rnd 100 (pv_claims * d.riskRate)
  let acquisition_costs := rnd 100 (pv_premiums * d.acqRate)
  let net_margin := pv_premiums - pv_claims - acquisition_costs - risk_adjustment
  let initial_csm := if 0 < net_margin then rnd 100 net_margin else 0
  let loss_component := if 0 < net_margin then 0 else rnd 100 |net_margin|
  let coverage_units_total := policy_count * d.covMonths
  let coverage_units_current :=
    (⌊(coverage_units_total : ℚ) * d.remainingRatio⌋).toNat
  let best_estimate_liability := rnd 100 (pv_claims + risk_adjustment)
  { line_of_business := k.lob
    geography := k.geo
    cohort_year := k.year
    policy_count := policy_count
    claim_count := grp.length
    total_incurred := total_incurred
    total_paid := total_paid
    total_outstanding := total_outstanding
    pv_factor := rnd 1000000 d.pvFactor
    pv_claims := pv_claims
    pv_premiums := pv_premiums
    risk_adjustment := risk_adjustment
    acquisition_costs := acquisition_costs
    initial_csm := initial_csm
    loss_component := loss_component
    profitability_class := if 0 < net_margin then .Profitable else .Onerous
    coverage_units_total := coverage_units_total
    coverage_units_current := coverage_units_current
    csm_amortization :=
      if 0 < coverage_units_total then
        rnd 100 (initial_csm *
          ((coverage_units_current : ℚ) / (coverage_units_total : ℚ)) * (1/4))
      else 0
    best_estimate_liability := best_estimate_liability
    liability_remaining_coverage :=
      rnd 100 (best_estimate_liability + initial_csm - loss_component)
    reserve_adequacy_ratio :=
      rnd 10000 (total_outstanding / max 1 pv_claims) }

/-- Embedding of `generate_reserves(claims_df)`: one row per distinct
cohort key of the input, in the ascending key order of the pandas
groupby, each row consuming its own draw record. -/
def generate_reserves (claims : List Claim) (d : ℕ → CohortDraws) :
    List Cohort :=
  ((dedupSort (claims.map ckey)).enum).map
    (fun p => mkCohort p.2 claims (d p.1))

end Actuarial

namespace Actuarial

/-! ### Shape lemmas -/

theorem mem_generate_reserves {claims : List Claim} {d : ℕ → CohortDraws}
    {r : Cohort} (h : r ∈ generate_reserves claims d) :
    ∃ i k, r = mkCohort k claims (d i) := by
  rw [generate_reserves] at h
  obtain ⟨p, hp, rfl⟩ := List.mem_map.mp h
  exact ⟨p.1, p.2, rfl⟩

/-- Net margin of a cohort row, from its stored (rounded) columns, as
computed at the CSM branch of `generate_reserves`. -/
def netMargin (r : Cohort) : ℚ :=
  r.pv_premiums - r.pv_claims - r.acquisition_costs - r.risk_adjustment

theorem cohort_key_eta (k : CKey) (claims : List Claim) (d0 : CohortDraws) :
    (⟨(mkCohort k claims d0).line_of_business, (mkCohort k claims d0).geography,
      (mkCohort k claims d0).cohort_year⟩ : CKey) = k := rfl

/-- C7: generate_reserves of an empty claims table is the empty cohort
table; the embedding is a total function, so no error is raised. -/
theorem generate_reserves_empty (d : ℕ → CohortDraws) :
    generate_reserves [] d = [] := rfl

/-- C5 (amended): generate_policies performs no count validation; for
every count it returns exactly that many rows with policy ids 1..count
(count 0 gives the empty table, not an error). -/
theorem generate_policies_ids (count : ℕ) (d : ℕ → PolicyDraws) :
    (generate_policies count d).length = count ∧
    (generate_policies count d).map (fun p => p.policy_id) =
      (List.range count).map (fun i => i + 1) := by
  constructor
  · simp [generate_policies]
  · simp [generate_policies, mkPolicy]

/-- C5 counterexample: generate_policies applied to count 0 returns the
empty policy table — a normal result, not an InvalidArgument failure;
there is no validation branch in the function. -/
theorem generate_policies_zero_returns_empty :
    generate_policies 0 (fun _ => ⟨25000, 1/20, .Motor, .CA⟩) = [] := rfl

/-- C8: the generators are pure functions of their counts and of the
draw stream derived from the seed: runs with equal seeds (hence equal
draw streams) and equal counts produce identical tables, row for row. -/
theorem generator_determinism (np p t : ℕ) (dp dp' : ℕ → PolicyDraws)
    (dc dc' : ℕ → ClaimDraws) (cs cs' : List Claim)
    (dr dr' : ℕ → CohortDraws)
    (h1 : dp = dp') (h2 : dc = dc') (h3 : cs = cs') (h4 : dr = dr') :
    generate_policies np dp = generate_policies np dp' ∧
    generate_claims p t dc = generate_claims p t dc' ∧
    generate_reserves cs dr = generate_reserves cs' dr' := by
  subst h1
  subst h2
  subst h3
  subst h4
  exact ⟨rfl, rfl, rfl⟩

theorem generator_determinism_witness :
    generate_policies 2 (fun _ => ⟨25000, 1/20, .Motor, .CA⟩) =
      generate_policies 2 (fun _ => ⟨25000, 1/20, .Motor, .CA⟩) ∧
    generate_claims 2 3 (fun _ => ⟨1, 2023, 1, 15, 10, 5000, 1, 1/2, .Motor, .CA⟩) =
      generate_claims 2 3 (fun _ => ⟨1, 2023, 1, 15, 10, 5000, 1, 1/2, .Motor, .CA⟩) ∧
    generate_reserves [] (fun _ => ⟨1/2, 23/20, 1/10, 1/5, 24, 3/4⟩) =
      generate_reserves [] (fun _ => ⟨1/2, 23/20, 1/10, 1/5, 24, 3/4⟩) :=
  generator_determinism 2 2 3 _ _ _ _ _ _ _ _ rfl rfl rfl rfl

/-- C10: the cohort table has exactly one row per distinct
(line_of_business, geography, accident_year) key of the input claims
(key membership both ways plus pairwise strict order, which forces
distinct rows), and its rows ascend lexicographically in that key. -/
theorem generate_reserves_keys (claims : List Claim) (d : ℕ → CohortDraws) :
    ((generate_reserves claims d).map
        (fun r => (⟨r.line_of_business, r.geography, r.cohort_year⟩ : CKey))).Pairwise
        keyLt ∧
    ∀ k : CKey,
      k ∈ (generate_reserves claims d).map
          (fun r => (⟨r.line_of_business, r.geography, r.cohort_year⟩ : CKey)) ↔
        k ∈ claims.map ckey := by
  have hmap : (generate_reserves claims d).map
      (fun r => (⟨r.line_of_business, r.geography, r.cohort_year⟩ : CKey)) =
      dedupSort (claims.map ckey) := by
    rw [generate_reserves, List.map_map]
    have h1 : ((fun r => (⟨r.line_of_business, r.geography, r.cohort_year⟩ : CKey)) ∘
        fun p : ℕ × CKey => mkCohort p.2 claims (d p.1)) = fun p => p.2 := by
      funext p
      exact cohort_key_eta p.2 claims (d p.1)
    rw [h1]
    exact List.enum_map_snd _
  rw [hmap]
  exact ⟨pairwise_dedupSort _, fun k => mem_dedupSort k _⟩

end Actuarial

namespace Actuarial

theorem rnd_zero (s : ℕ) : rnd s 0 = 0 := by
  have h1 : ((0 : ℚ) * s) = ((0 : ℤ) : ℚ) := by norm_num
  rw [rnd, h1, rhe_intCast]
  norm_num

theorem cents_scale10000 {x : ℚ} (h : Cents x) : ∃ n : ℤ, x = (n : ℚ) / 10000 := by
  obtain ⟨n, rfl⟩ := h
  exact ⟨100 * n, by push_cast; ring⟩

/-- C1 (amended): the CSM/loss-component split of every cohort row is
decided exactly by the sign of the net margin recomputed from the stored
columns; at most one of the two is nonzero, and exactly one is nonzero
whenever the net margin is nonzero (when it is zero — e.g. a cohort with
zero incurred — both components are 0.0 and the class is Onerous). -/
theorem reserves_csm_loss_split (claims : List Claim) (d : ℕ → CohortDraws)
    (r : Cohort) (h : r ∈ generate_reserves claims d) :
    (0 < netMargin r → r.initial_csm = rnd 100 (netMargin r) ∧
      r.loss_component = 0 ∧ r.profitability_class = .Profitable) ∧
    (netMargin r ≤ 0 → r.initial_csm = 0 ∧
      r.loss_component = rnd 100 |netMargin r| ∧
      r.profitability_class = .Onerous) ∧
    ¬(r.initial_csm ≠ 0 ∧ r.loss_component ≠ 0) ∧
    (netMargin r ≠ 0 →
      (r.initial_csm ≠ 0 ∧ r.loss_component = 0) ∨
      (r.initial_csm = 0 ∧ r.loss_component ≠ 0)) := by
  obtain ⟨i, k, rfl⟩ := mem_generate_reserves h
  have hcsm : (mkCohort k claims (d i)).initial_csm =
      if 0 < netMargin (mkCohort k claims (d i)) then
        rnd 100 (netMargin (mkCohort k claims (d i))) else 0 := rfl
  have hloss : (mkCohort k claims (d i)).loss_component =
      if 0 < netMargin (mkCohort k claims (d i)) then 0
      else rnd 100 |netMargin (mkCohort k claims (d i))| := rfl
  have hclass : (mkCohort k claims (d i)).profitability_class =
      if 0 < netMargin (mkCohort k claims (d i)) then PClass.Profitable
      else PClass.Onerous := rfl
  have hcents : Cents (netMargin (mkCohort k claims (d i))) :=
    cents_sub (cents_sub (cents_sub (cents_rnd100 _) (cents_rnd100 _))
      (cents_rnd100 _)) (cents_rnd100 _)
  rcases lt_or_le 0 (netMargin (mkCohort k claims (d i))) with hpos | hnp
  · rw [hcsm, hloss, hclass, if_pos hpos, if_pos hpos, if_pos hpos]
    have hfix := rnd100_cents_fix hcents
    refine ⟨fun _ => ⟨rfl, rfl, rfl⟩, fun hle => absurd hpos (not_lt.mpr hle),
      fun hc => hc.2 rfl, fun _ => Or.inl ⟨?_, rfl⟩⟩
    rw [hfix]
    exact ne_of_gt hpos
  · rw [hcsm, hloss, hclass, if_neg (not_lt.mpr hnp), if_neg (not_lt.mpr hnp),
      if_neg (not_lt.mpr hnp)]
    refine ⟨fun hpos => absurd hpos (not_lt.mpr hnp), fun _ => ⟨rfl, rfl, rfl⟩,
      fun hc => hc.1 rfl, fun hne => Or.inr ⟨rfl, ?_⟩⟩
    have habs : 0 < |netMargin (mkCohort k claims (d i))| :=
      abs_pos.mpr hne
    have hfix := rnd100_cents_fix (cents_abs hcents)
    rw [hfix]
    exact ne_of_gt habs

/-- C2: every cohort row's best-estimate liability is the rounded sum of
claims present value and risk adjustment, and its liability for
remaining coverage is the rounded BEL plus CSM minus loss component. -/
theorem reserves_liability_formulas (claims : List Claim)
    (d : ℕ → CohortDraws) (r : Cohort) (h : r ∈ generate_reserves claims d) :
    r.best_estimate_liability = rnd 100 (r.pv_claims + r.risk_adjustment) ∧
    r.liability_remaining_coverage =
      rnd 100 (r.best_estimate_liability + r.initial_csm - r.loss_component) := by
  obtain ⟨i, k, rfl⟩ := mem_generate_reserves h
  exact ⟨rfl, rfl⟩

/-- C6: a cohort with zero total incurred gets zero claims present value
and zero risk adjustment, the `max(1, pv_claims)` guard makes the
adequacy-ratio denominator exactly 1, and the ratio is total outstanding
divided by 1 (its rounding to 4 decimals is the identity because the
outstanding total is a sum of cent amounts). -/
theorem reserves_zero_incurred_guard (claims : List Claim)
    (d : ℕ → CohortDraws) (r : Cohort) (h : r ∈ generate_reserves claims d)
    (hz : r.total_incurred = 0) (hout : Cents r.total_outstanding) :
    r.pv_claims = 0 ∧ r.risk_adjustment = 0 ∧ max 1 r.pv_claims = 1 ∧
    r.reserve_adequacy_ratio = r.total_outstanding / 1 := by
  obtain ⟨i, k, rfl⟩ := mem_generate_reserves h
  have h1 : (mkCohort k claims (d i)).pv_claims =
      rnd 100 ((mkCohort k claims (d i)).total_incurred * (d i).pvFactor) := rfl
  have h2 : (mkCohort k claims (d i)).risk_adjustment =
      rnd 100 ((mkCohort k claims (d i)).pv_claims * (d i).riskRate) := rfl
  have h3 : (mkCohort k claims (d i)).reserve_adequacy_ratio =
      rnd 10000 ((mkCohort k claims (d i)).total_outstanding /
        max 1 (mkCohort k claims (d i)).pv_claims) := rfl
  have hpv : (mkCohort k claims (d i)).pv_claims = 0 := by
    rw [h1, hz, zero_mul, rnd_zero]
  have hmax : max (1:ℚ) (mkCohort k claims (d i)).pv_claims = 1 := by
    rw [hpv]
    norm_num
  refine ⟨hpv, ?_, hmax, ?_⟩
  · rw [h2, hpv, zero_mul, rnd_zero]
  · rw [h3, hmax, div_one, rnd_fix (by norm_num) (cents_scale10000 hout)]

/-- C9 (amended): coverage units current never exceed coverage units
total, the amortization rate lies in [0, 1], and the stored (rounded)
CSM amortization lies between 0 and a quarter of the initial CSM plus at
most half a cent of rounding slack.  The exact upper bound
`0.25 * initial_csm` can be overshot by the rounding (see the
counterexample). -/
theorem reserves_coverage_amortization (claims : List Claim)
    (d : ℕ → CohortDraws) (r : Cohort) (h : r ∈ generate_reserves claims d)
    (hok : ∀ i, (d i).Ok) :
    r.coverage_units_current ≤ r.coverage_units_total ∧
    0 ≤ ((r.coverage_units_current : ℚ) / (r.coverage_units_total : ℚ)) ∧
    ((r.coverage_units_current : ℚ) / (r.coverage_units_total : ℚ)) ≤ 1 ∧
    0 ≤ r.csm_amortization ∧
    r.csm_amortization ≤ r.initial_csm * (1/4) + 1/200 := by
  obtain ⟨i, k, rfl⟩ := mem_generate_reserves h
  obtain ⟨-, -, -, -, -, -, -, -, -, -, hr1, hr2⟩ := hok i
  set T : ℕ := (mkCohort k claims (d i)).coverage_units_total with hT
  have hcur : (mkCohort k claims (d i)).coverage_units_current =
      (⌊(T : ℚ) * (d i).remainingRatio⌋).toNat := rfl
  have hle : (mkCohort k claims (d i)).coverage_units_current ≤ T := by
    rw [hcur]
    have h1 : (T : ℚ) * (d i).remainingRatio ≤ (T : ℚ) :=
      mul_le_of_le_one_right (by positivity) (le_of_lt hr2)
    have h2 : ⌊(T : ℚ) * (d i).remainingRatio⌋ ≤ (T : ℤ) := by
      have := Int.floor_le_floor h1
      simpa using this
    exact Int.toNat_le.mpr h2
  have hrate0 : 0 ≤ ((mkCohort k claims (d i)).coverage_units_current : ℚ) /
      (T : ℚ) := by positivity
  have hrate1 : ((mkCohort k claims (d i)).coverage_units_current : ℚ) /
      (T : ℚ) ≤ 1 := by
    rcases Nat.eq_zero_or_pos T with hz | hpos
    · rw [hz]
      norm_num
    · rw [div_le_one (by exact_mod_cast hpos)]
      exact_mod_cast hle
  have hcsm0 : 0 ≤ (mkCohort k claims (d i)).initial_csm := by
    have hc : (mkCohort k claims (d i)).initial_csm =
        if 0 < netMargin (mkCohort k claims (d i)) then
          rnd 100 (netMargin (mkCohort k claims (d i))) else 0 := rfl
    rw [hc]
    split_ifs with hpos
    · exact rnd100_nonneg (le_of_lt hpos)
    · exact le_refl 0
  have hamort : (mkCohort k claims (d i)).csm_amortization =
      if 0 < T then
        rnd 100 ((mkCohort k claims (d i)).initial_csm *
          (((mkCohort k claims (d i)).coverage_units_current : ℚ) / (T : ℚ)) *
          (1/4))
      else 0 := rfl
  refine ⟨hle, hrate0, hrate1, ?_, ?_⟩
  · rw [hamort]
    split_ifs with hpos
    · exact rnd100_nonneg (by positivity)
    · exact le_refl 0
  · rw [hamort]
    split_ifs with hpos
    · have h1 : (mkCohort k claims (d i)).initial_csm *
          (((mkCohort k claims (d i)).coverage_units_current : ℚ) / (T : ℚ)) *
          (1/4) ≤ (mkCohort k claims (d i)).initial_csm * (1/4) := by
        have h2 : (mkCohort k claims (d i)).initial_csm *
            (((mkCohort k claims (d i)).coverage_units_current : ℚ) / (T : ℚ)) ≤
            (mkCohort k claims (d i)).initial_csm * 1 :=
          mul_le_mul_of_nonneg_left hrate1 hcsm0
        nlinarith
      exact le_trans (rnd100_le_add_half_cent _) (by linarith)
    · have := hcsm0
      linarith

end Actuarial

namespace Actuarial

theorem daysInMonth_ge_28 (y m : ℕ) : 28 ≤ daysInMonth y m := by
  unfold daysInMonth
  split_ifs <;> omega

/-- Accident dates built from in-range draws (month 1-12, day 1-28) are
calendar-valid. -/
theorem accident_date_valid {d : ClaimDraws} (h : d.Ok) :
    (Date.mk d.accYear d.accMonth d.accDay).Valid := by
  obtain ⟨h1, h2, h3, h4, -⟩ := h
  exact ⟨h1, h2, h3, le_trans h4 (daysInMonth_ge_28 _ _)⟩

/-- Row accessor for the claims table (claim i sits at position i). -/
def claimAt (p t : ℕ) (d : ℕ → ClaimDraws) (i : ℕ) (h : i < t) : Claim :=
  (generate_claims p t d).get ⟨i, by rw [generate_claims_length]; exact h⟩

theorem claimAt_eq (p t : ℕ) (d : ℕ → ClaimDraws) (i : ℕ) (h : i < t) :
    claimAt p t d i h = mkClaim (i + 1) (d i) := by
  rw [claimAt, generate_claims_get]
  exact h

theorem mkClaim_dates (cid : ℕ) (d : ClaimDraws) :
    (mkClaim cid d).accident_date = ⟨d.accYear, d.accMonth, d.accDay⟩ ∧
    (mkClaim cid d).report_date =
      addDays ⟨d.accYear, d.accMonth, d.accDay⟩ d.reportDelay := ⟨rfl, rfl⟩

/-- Development month of a claim row, as the month-index difference. -/
theorem mkClaim_development_month (cid : ℕ) (d : ClaimDraws) :
    (mkClaim cid d).development_month =
      max 1 ((monthIdx (mkClaim cid d).report_date : ℤ) -
        (monthIdx (mkClaim cid d).accident_date : ℤ) + 1) := by
  have h1 : (mkClaim cid d).development_month =
      max 1 ((((mkClaim cid d).report_date.year : ℤ) -
          ((mkClaim cid d).accident_date.year : ℤ)) * 12 +
        (((mkClaim cid d).report_date.month : ℤ) -
          ((mkClaim cid d).accident_date.month : ℤ)) + 1) := rfl
  rw [h1]
  congr 1
  unfold monthIdx
  push_cast
  ring

/-- C3 (amended): every generated claim's development month is the
whole-month difference between report and accident date plus one,
floored at one, hence never below one; and it is weakly monotone in the
report delay: with the same accident-date draws, a longer delay never
yields a smaller development month.  Strict growth fails — the month
counter ignores the day of month (see the counterexample). -/
theorem claims_development_month (p t : ℕ) (d : ℕ → ClaimDraws) (i j : ℕ)
    (hi : i < t) (hj : j < t) (hoki : (d i).Ok)
    (hy : (d i).accYear = (d j).accYear) (hm : (d i).accMonth = (d j).accMonth)
    (hd : (d i).accDay = (d j).accDay)
    (hdel : (d i).reportDelay ≤ (d j).reportDelay) :
    (claimAt p t d i hi).development_month =
      max 1 ((((claimAt p t d i hi).report_date.year : ℤ) -
          ((claimAt p t d i hi).accident_date.year : ℤ)) * 12 +
        (((claimAt p t d i hi).report_date.month : ℤ) -
          ((claimAt p t d i hi).accident_date.month : ℤ)) + 1) ∧
    1 ≤ (claimAt p t d i hi).development_month ∧
    (claimAt p t d i hi).development_month ≤
      (claimAt p t d j hj).development_month := by
  rw [claimAt_eq, claimAt_eq]
  refine ⟨rfl, le_max_left _ _, ?_⟩
  rw [mkClaim_development_month, mkClaim_development_month]
  have hacc : (Date.mk (d j).accYear (d j).accMonth (d j).accDay) =
      (Date.mk (d i).accYear (d i).accMonth (d i).accDay) := by
    rw [hy, hm, hd]
  have hvalid := accident_date_valid hoki
  have hdates_i := mkClaim_dates (i + 1) (d i)
  have hdates_j := mkClaim_dates (j + 1) (d j)
  rw [hdates_i.1, hdates_i.2, hdates_j.1, hdates_j.2, hacc]
  have hmono := monthIdx_mono hvalid hdel
  have hbase := monthIdx_le_addDays hvalid (d i).reportDelay
  omega

/-- C4: every generated claim has outstanding = incurred − paid, equal
to the clamped `max(0, incurred − paid)` and hence non-negative, and a
report date no earlier than its accident date. -/
theorem claims_outstanding_invariants (p t : ℕ) (d : ℕ → ClaimDraws)
    (hok : ∀ i, (d i).Ok) :
    ∀ c ∈ generate_claims p t d,
      c.outstanding_reserve = c.incurred_amount - c.paid_amount ∧
      c.outstanding_reserve = max 0 (c.incurred_amount - c.paid_amount) ∧
      0 ≤ c.outstanding_reserve ∧
      dateLe c.accident_date c.report_date := by
  intro c hc
  rw [generate_claims] at hc
  obtain ⟨i, hi, rfl⟩ := List.mem_map.mp hc
  obtain ⟨-, -, -, -, -, hpos, hp0, hp1⟩ := hok i
  have hinc : (mkClaim (i + 1) (d i)).incurred_amount =
      rnd 100 (rnd 100 (d i).initialDraw * max (1/10) (d i).devFactorDraw) := rfl
  have hpaid : (mkClaim (i + 1) (d i)).paid_amount =
      rnd 100 ((mkClaim (i + 1) (d i)).incurred_amount * (d i).payPattern) := rfl
  have hout : (mkClaim (i + 1) (d i)).outstanding_reserve =
      max 0 ((mkClaim (i + 1) (d i)).incurred_amount -
        (mkClaim (i + 1) (d i)).paid_amount) := rfl
  have hinc0 : 0 ≤ (mkClaim (i + 1) (d i)).incurred_amount := by
    rw [hinc]
    refine rnd100_nonneg (mul_nonneg (rnd100_nonneg (le_of_lt hpos)) ?_)
    exact le_trans (by norm_num) (le_max_left (1/10) _)
  have hcents : Cents (mkClaim (i + 1) (d i)).incurred_amount := by
    rw [hinc]
    exact cents_rnd100 _
  have hple : (mkClaim (i + 1) (d i)).paid_amount ≤
      (mkClaim (i + 1) (d i)).incurred_amount := by
    rw [hpaid]
    exact rnd100_le_of_le_cents hcents (mul_le_of_le_one_right hinc0 hp1)
  have heq : (mkClaim (i + 1) (d i)).outstanding_reserve =
      (mkClaim (i + 1) (d i)).incurred_amount -
        (mkClaim (i + 1) (d i)).paid_amount := by
    rw [hout]
    exact max_eq_right (sub_nonneg.mpr hple)
  refine ⟨heq, hout, ?_, ?_⟩
  · rw [heq]
    exact sub_nonneg.mpr hple
  · have hd := mkClaim_dates (i + 1) (d i)
    rw [hd.1, hd.2]
    exact dateLe_addDays _ _

end Actuarial

namespace Actuarial

/-! ### Projection lemmas for cohort rows -/

theorem mkCohort_total_incurred (k : CKey) (claims : List Claim)
    (d0 : CohortDraws) :
    (mkCohort k claims d0).total_incurred =
      ((claims.filter fun c => ckey c = k).map
        fun c => c.incurred_amount).sum := rfl

theorem mkCohort_total_outstanding (k : CKey) (claims : List Claim)
    (d0 : CohortDraws) :
    (mkCohort k claims d0).total_outstanding =
      ((claims.filter fun c => ckey c = k).map
        fun c => c.outstanding_reserve).sum := rfl

theorem mkCohort_policy_count (k : CKey) (claims : List Claim)
    (d0 : CohortDraws) :
    (mkCohort k claims d0).policy_count =
      ((claims.filter fun c => ckey c = k).map
        fun c => c.policy_id).dedup.length := rfl

theorem mkCohort_pv_claims (k : CKey) (claims : List Claim)
    (d0 : CohortDraws) :
    (mkCohort k claims d0).pv_claims =
      rnd 100 ((mkCohort k claims d0).total_incurred * d0.pvFactor) := rfl

theorem mkCohort_pv_premiums (k : CKey) (claims : List Claim)
    (d0 : CohortDraws) :
    (mkCohort k claims d0).pv_premiums =
      rnd 100 ((mkCohort k claims d0).total_incurred * d0.pvFactor *
        d0.premiumRatio) := rfl

theorem mkCohort_risk_adjustment (k : CKey) (claims : List Claim)
    (d0 : CohortDraws) :
    (mkCohort k claims d0).risk_adjustment =
      rnd 100 ((mkCohort k claims d0).pv_claims * d0.riskRate) := rfl

theorem mkCohort_acquisition_costs (k : CKey) (claims : List Claim)
    (d0 : CohortDraws) :
    (mkCohort k claims d0).acquisition_costs =
      rnd 100 ((mkCohort k claims d0).pv_premiums * d0.acqRate) := rfl

theorem mkCohort_initial_csm (k : CKey) (claims : List Claim)
    (d0 : CohortDraws) :
    (mkCohort k claims d0).initial_csm =
      if 0 < netMargin (mkCohort k claims d0) then
        rnd 100 (netMargin (mkCohort k claims d0)) else 0 := rfl

theorem mkCohort_loss_component (k : CKey) (claims : List Claim)
    (d0 : CohortDraws) :
    (mkCohort k claims d0).loss_component =
      if 0 < netMargin (mkCohort k claims d0) then 0
      else rnd 100 |netMargin (mkCohort k claims d0)| := rfl

theorem mkCohort_coverage_units_total (k : CKey) (claims : List Claim)
    (d0 : CohortDraws) :
    (mkCohort k claims d0).coverage_units_total =
      (mkCohort k claims d0).policy_count * d0.covMonths := rfl

theorem mkCohort_coverage_units_current (k : CKey) (claims : List Claim)
    (d0 : CohortDraws) :
    (mkCohort k claims d0).coverage_units_current =
      (⌊((mkCohort k claims d0).coverage_units_total : ℚ) *
        d0.remainingRatio⌋).toNat := rfl

theorem mkCohort_csm_amortization (k : CKey) (claims : List Claim)
    (d0 : CohortDraws) :
    (mkCohort k claims d0).csm_amortization =
      if 0 < (mkCohort k claims d0).coverage_units_total then
        rnd 100 ((mkCohort k claims d0).initial_csm *
          (((mkCohort k claims d0).coverage_units_current : ℚ) /
            ((mkCohort k claims d0).coverage_units_total : ℚ)) * (1/4))
      else 0 := rfl

/-! ### Concrete witness inputs -/

/-- An ordinary one-claim input: accident 2023-01-15 reported 7 days
later, a 5000.00 initial reserve, development factor draw 1, half the
incurred paid. -/
def wClaimDraws : ℕ → ClaimDraws :=
  fun _ => ⟨1, 2023, 1, 15, 7, 5000, 1, 1/2, .Motor, .CA⟩

def wClaims : List Claim := generate_claims 1 1 wClaimDraws

/-- In-range cohort draws: factor 0.5, premium ratio 1.15, risk rate
0.10, acquisition rate 0.20, 24 coverage months, 75% remaining. -/
def wCohortDraws : ℕ → CohortDraws := fun _ => ⟨1/2, 23/20, 1/10, 1/5, 24, 3/4⟩

def wCohort : Cohort := mkCohort ⟨.Motor, .CA, 2023⟩ wClaims (wCohortDraws 0)

theorem generate_reserves_wClaims :
    generate_reserves wClaims wCohortDraws = [wCohort] := rfl

theorem wCohort_mem : wCohort ∈ generate_reserves wClaims wCohortDraws := by
  rw [generate_reserves_wClaims]
  exact List.mem_singleton.mpr rfl

theorem wClaims_eq : wClaims = [mkClaim 1 (wClaimDraws 0)] := rfl

theorem wClaim_mem : mkClaim 1 (wClaimDraws 0) ∈ generate_claims 1 1 wClaimDraws := by
  rw [show generate_claims 1 1 wClaimDraws = [mkClaim 1 (wClaimDraws 0)] from rfl]
  exact List.mem_singleton.mpr rfl

/-- A degenerate but reachable claim: a log-normal initial-reserve draw
of 0.001 rounds to 0.00 cents, so the claim's incurred amount is zero. -/
def zClaimDraws : ℕ → ClaimDraws :=
  fun _ => ⟨1, 2023, 1, 15, 0, 1/1000, 1, 1/2, .Motor, .CA⟩

def zClaims : List Claim := generate_claims 1 1 zClaimDraws

def zCohort : Cohort := mkCohort ⟨.Motor, .CA, 2023⟩ zClaims (wCohortDraws 0)

theorem generate_reserves_zClaims :
    generate_reserves zClaims wCohortDraws = [zCohort] := rfl

theorem zCohort_mem : zCohort ∈ generate_reserves zClaims wCohortDraws := by
  rw [generate_reserves_zClaims]
  exact List.mem_singleton.mpr rfl

theorem zClaim_incurred : (mkClaim 1 (zClaimDraws 0)).incurred_amount = 0 := by
  have h : (mkClaim 1 (zClaimDraws 0)).incurred_amount =
      rnd 100 (rnd 100 ((1:ℚ)/1000) * max (1/10) 1) := rfl
  have h2 : rnd 100 ((1:ℚ)/1000) = 0 := by
    rw [rnd, rhe]
    norm_num [Int.fract]
  rw [h, h2, zero_mul, rnd_zero]

theorem zClaim_outstanding : (mkClaim 1 (zClaimDraws 0)).outstanding_reserve = 0 := by
  have h : (mkClaim 1 (zClaimDraws 0)).outstanding_reserve =
      max 0 ((mkClaim 1 (zClaimDraws 0)).incurred_amount -
        (mkClaim 1 (zClaimDraws 0)).paid_amount) := rfl
  have hp : (mkClaim 1 (zClaimDraws 0)).paid_amount =
      rnd 100 ((mkClaim 1 (zClaimDraws 0)).incurred_amount * ((1:ℚ)/2)) := rfl
  rw [h, hp, zClaim_incurred, zero_mul, rnd_zero]
  norm_num

theorem zCohort_total_incurred : zCohort.total_incurred = 0 := by
  rw [zCohort, mkCohort_total_incurred,
    show zClaims = [mkClaim 1 (zClaimDraws 0)] from rfl]
  have hk : ckey (mkClaim 1 (zClaimDraws 0)) =
      (⟨.Motor, .CA, 2023⟩ : CKey) := rfl
  simp [List.filter_cons, hk, zClaim_incurred]

theorem zCohort_total_outstanding : zCohort.total_outstanding = 0 := by
  rw [zCohort, mkCohort_total_outstanding,
    show zClaims = [mkClaim 1 (zClaimDraws 0)] from rfl]
  have hk : ckey (mkClaim 1 (zClaimDraws 0)) =
      (⟨.Motor, .CA, 2023⟩ : CKey) := rfl
  simp [List.filter_cons, hk, zClaim_outstanding]

end Actuarial

namespace Actuarial

theorem zCohort_pv_claims : zCohort.pv_claims = 0 := by
  have h : zCohort.pv_claims =
      rnd 100 (zCohort.total_incurred * (wCohortDraws 0).pvFactor) := rfl
  rw [h, zCohort_total_incurred, zero_mul, rnd_zero]

theorem zCohort_pv_premiums : zCohort.pv_premiums = 0 := by
  have h : zCohort.pv_premiums =
      rnd 100 (zCohort.total_incurred * (wCohortDraws 0).pvFactor *
        (wCohortDraws 0).premiumRatio) := rfl
  rw [h, zCohort_total_incurred, zero_mul, zero_mul, rnd_zero]

theorem zCohort_risk_adjustment : zCohort.risk_adjustment = 0 := by
  have h : zCohort.risk_adjustment =
      rnd 100 (zCohort.pv_claims * (wCohortDraws 0).riskRate) := rfl
  rw [h, zCohort_pv_claims, zero_mul, rnd_zero]

theorem zCohort_acquisition_costs : zCohort.acquisition_costs = 0 := by
  have h : zCohort.acquisition_costs =
      rnd 100 (zCohort.pv_premiums * (wCohortDraws 0).acqRate) := rfl
  rw [h, zCohort_pv_premiums, zero_mul, rnd_zero]

theorem zCohort_netMargin : netMargin zCohort = 0 := by
  unfold netMargin
  rw [zCohort_pv_premiums, zCohort_pv_claims, zCohort_risk_adjustment,
    zCohort_acquisition_costs]
  norm_num

theorem zCohort_initial_csm : zCohort.initial_csm = 0 := by
  have h : zCohort.initial_csm =
      if 0 < netMargin zCohort then rnd 100 (netMargin zCohort) else 0 := rfl
  rw [h, zCohort_netMargin]
  norm_num

theorem zCohort_loss_component : zCohort.loss_component = 0 := by
  have h : zCohort.loss_component =
      if 0 < netMargin zCohort then 0
      else rnd 100 |netMargin zCohort| := rfl
  rw [h, zCohort_netMargin]
  simp [rnd_zero]

theorem zCohort_class : zCohort.profitability_class = .Onerous := by
  have h : zCohort.profitability_class =
      if 0 < netMargin zCohort then PClass.Profitable else PClass.Onerous := rfl
  rw [h, zCohort_netMargin]
  norm_num

/-- C1 counterexample: a cohort whose only claim has a zero incurred
amount (a 0.001 initial-reserve draw rounds to 0.00) gets net margin 0,
so BOTH initial_csm and loss_component are 0.0 — "exactly one of the
two is nonzero" fails on this row, which is classed Onerous. -/
theorem csm_loss_both_zero_counterexample :
    zCohort ∈ generate_reserves zClaims wCohortDraws ∧
    zCohort.initial_csm = 0 ∧ zCohort.loss_component = 0 ∧
    zCohort.profitability_class = .Onerous :=
  ⟨zCohort_mem, zCohort_initial_csm, zCohort_loss_component, zCohort_class⟩

/-- Witness instantiating the C1 split theorem on a concrete cohort row. -/
theorem reserves_csm_loss_split_witness :
    (0 < netMargin wCohort → wCohort.initial_csm = rnd 100 (netMargin wCohort) ∧
      wCohort.loss_component = 0 ∧ wCohort.profitability_class = .Profitable) ∧
    (netMargin wCohort ≤ 0 → wCohort.initial_csm = 0 ∧
      wCohort.loss_component = rnd 100 |netMargin wCohort| ∧
      wCohort.profitability_class = .Onerous) ∧
    ¬(wCohort.initial_csm ≠ 0 ∧ wCohort.loss_component ≠ 0) ∧
    (netMargin wCohort ≠ 0 →
      (wCohort.initial_csm ≠ 0 ∧ wCohort.loss_component = 0) ∨
      (wCohort.initial_csm = 0 ∧ wCohort.loss_component ≠ 0)) :=
  reserves_csm_loss_split wClaims wCohortDraws wCohort wCohort_mem

/-- Witness instantiating the C2 liability formulas on a concrete row. -/
theorem reserves_liability_formulas_witness :
    wCohort.best_estimate_liability =
      rnd 100 (wCohort.pv_claims + wCohort.risk_adjustment) ∧
    wCohort.liability_remaining_coverage =
      rnd 100 (wCohort.best_estimate_liability + wCohort.initial_csm -
        wCohort.loss_component) :=
  reserves_liability_formulas wClaims wCohortDraws wCohort wCohort_mem

/-- Witness instantiating the C6 zero-incurred guard on a concrete
zero-incurred cohort. -/
theorem reserves_zero_incurred_guard_witness :
    zCohort.pv_claims = 0 ∧ zCohort.risk_adjustment = 0 ∧
    max 1 zCohort.pv_claims = 1 ∧
    zCohort.reserve_adequacy_ratio = zCohort.total_outstanding / 1 :=
  reserves_zero_incurred_guard zClaims wCohortDraws zCohort zCohort_mem
    zCohort_total_incurred
    (by rw [zCohort_total_outstanding]; exact cents_zero)

/-- Witness instantiating the C9 coverage/amortization bounds on a
concrete cohort row with in-range draws. -/
theorem reserves_coverage_amortization_witness :
    wCohort.coverage_units_current ≤ wCohort.coverage_units_total ∧
    0 ≤ ((wCohort.coverage_units_current : ℚ) /
      (wCohort.coverage_units_total : ℚ)) ∧
    ((wCohort.coverage_units_current : ℚ) /
      (wCohort.coverage_units_total : ℚ)) ≤ 1 ∧
    0 ≤ wCohort.csm_amortization ∧
    wCohort.csm_amortization ≤ wCohort.initial_csm * (1/4) + 1/200 :=
  reserves_coverage_amortization wClaims wCohortDraws wCohort wCohort_mem
    (fun _ => by norm_num [CohortDraws.Ok, wCohortDraws])

/-- Witness instantiating the C4 outstanding/report-date invariants on a
concrete generated claim. -/
theorem claims_outstanding_invariants_witness :
    (mkClaim 1 (wClaimDraws 0)).outstanding_reserve =
      (mkClaim 1 (wClaimDraws 0)).incurred_amount -
        (mkClaim 1 (wClaimDraws 0)).paid_amount ∧
    (mkClaim 1 (wClaimDraws 0)).outstanding_reserve =
      max 0 ((mkClaim 1 (wClaimDraws 0)).incurred_amount -
        (mkClaim 1 (wClaimDraws 0)).paid_amount) ∧
    0 ≤ (mkClaim 1 (wClaimDraws 0)).outstanding_reserve ∧
    dateLe (mkClaim 1 (wClaimDraws 0)).accident_date
      (mkClaim 1 (wClaimDraws 0)).report_date :=
  claims_outstanding_invariants 1 1 wClaimDraws
    (fun _ => by norm_num [ClaimDraws.Ok, wClaimDraws])
    (mkClaim 1 (wClaimDraws 0)) wClaim_mem

end Actuarial

namespace Actuarial

/-! ### C9 counterexample input: a profitable cohort with a tiny CSM -/

/-- One claim with an exact 100.00 incurred amount and nothing paid. -/
def xClaimDraws : ℕ → ClaimDraws :=
  fun _ => ⟨1, 2023, 1, 15, 7, 100, 1, 0, .Motor, .CA⟩

def xClaims : List Claim := generate_claims 1 1 xClaimDraws

/-- In-range cohort draws tuned so the net margin is exactly 0.03:
factor 0.5, premium ratio 1.199, risk rate 0.05, acquisition rate
742/5995 (about 0.1238), 12 coverage months, 76% remaining. -/
def xCohortDraws : ℕ → CohortDraws :=
  fun _ => ⟨1/2, 1199/1000, 1/20, 742/5995, 12, 19/25⟩

def xCohort : Cohort := mkCohort ⟨.Motor, .CA, 2023⟩ xClaims (xCohortDraws 0)

theorem generate_reserves_xClaims :
    generate_reserves xClaims xCohortDraws = [xCohort] := rfl

theorem xCohort_mem : xCohort ∈ generate_reserves xClaims xCohortDraws := by
  rw [generate_reserves_xClaims]
  exact List.mem_singleton.mpr rfl

theorem xClaim_incurred : (mkClaim 1 (xClaimDraws 0)).incurred_amount = 100 := by
  have h : (mkClaim 1 (xClaimDraws 0)).incurred_amount =
      rnd 100 (rnd 100 (100:ℚ) * max (1/10) 1) := rfl
  have h1 : rnd 100 (100:ℚ) = 100 := rnd_fix (by norm_num) ⟨10000, by norm_num⟩
  have h2 : max ((1:ℚ)/10) 1 = 1 := max_eq_right (by norm_num)
  rw [h, h1, h2, mul_one, h1]

theorem xCohort_total_incurred : xCohort.total_incurred = 100 := by
  rw [xCohort, mkCohort_total_incurred,
    show xClaims = [mkClaim 1 (xClaimDraws 0)] from rfl]
  have hk : ckey (mkClaim 1 (xClaimDraws 0)) =
      (⟨.Motor, .CA, 2023⟩ : CKey) := rfl
  simp [List.filter_cons, hk, xClaim_incurred]

theorem xCohort_pv_claims : xCohort.pv_claims = 50 := by
  have h : xCohort.pv_claims =
      rnd 100 (xCohort.total_incurred * (xCohortDraws 0).pvFactor) := rfl
  rw [h, xCohort_total_incurred]
  have h1 : (100 : ℚ) * (xCohortDraws 0).pvFactor = 50 := by
    norm_num [xCohortDraws]
  rw [h1]
  exact rnd_fix (by norm_num) ⟨5000, by norm_num⟩

theorem xCohort_pv_premiums : xCohort.pv_premiums = 5995/100 := by
  have h : xCohort.pv_premiums =
      rnd 100 (xCohort.total_incurred * (xCohortDraws 0).pvFactor *
        (xCohortDraws 0).premiumRatio) := rfl
  rw [h, xCohort_total_incurred]
  have h1 : (100 : ℚ) * (xCohortDraws 0).pvFactor *
      (xCohortDraws 0).premiumRatio = 5995/100 := by
    norm_num [xCohortDraws]
  rw [h1]
  exact rnd_fix (by norm_num) ⟨5995, by norm_num⟩

theorem xCohort_risk_adjustment : xCohort.risk_adjustment = 5/2 := by
  have h : xCohort.risk_adjustment =
      rnd 100 (xCohort.pv_claims * (xCohortDraws 0).riskRate) := rfl
  rw [h, xCohort_pv_claims]
  have h1 : (50 : ℚ) * (xCohortDraws 0).riskRate = 5/2 := by
    norm_num [xCohortDraws]
  rw [h1]
  exact rnd_fix (by norm_num) ⟨250, by norm_num⟩

theorem xCohort_acquisition_costs : xCohort.acquisition_costs = 742/100 := by
  have h : xCohort.acquisition_costs =
      rnd 100 (xCohort.pv_premiums * (xCohortDraws 0).acqRate) := rfl
  rw [h, xCohort_pv_premiums]
  have h1 : ((5995:ℚ)/100) * (xCohortDraws 0).acqRate = 742/100 := by
    norm_num [xCohortDraws]
  rw [h1]
  exact rnd_fix (by norm_num) ⟨742, by norm_num⟩

theorem xCohort_netMargin : netMargin xCohort = 3/100 := by
  unfold netMargin
  rw [xCohort_pv_premiums, xCohort_pv_claims, xCohort_risk_adjustment,
    xCohort_acquisition_costs]
  norm_num

theorem xCohort_initial_csm : xCohort.initial_csm = 3/100 := by
  have h : xCohort.initial_csm =
      if 0 < netMargin xCohort then rnd 100 (netMargin xCohort) else 0 := rfl
  rw [h, xCohort_netMargin, if_pos (by norm_num)]
  exact rnd_fix (by norm_num) ⟨3, by norm_num⟩

theorem xCohort_policy_count : xCohort.policy_count = 1 := by
  rw [xCohort, mkCohort_policy_count,
    show xClaims = [mkClaim 1 (xClaimDraws 0)] from rfl]
  have hk : ckey (mkClaim 1 (xClaimDraws 0)) =
      (⟨.Motor, .CA, 2023⟩ : CKey) := rfl
  simp [List.filter_cons, hk]

theorem xCohort_coverage_units_total : xCohort.coverage_units_total = 12 := by
  have h : xCohort.coverage_units_total =
      xCohort.policy_count * (xCohortDraws 0).covMonths := rfl
  rw [h, xCohort_policy_count]
  norm_num [xCohortDraws]

theorem xCohort_coverage_units_current : xCohort.coverage_units_current = 9 := by
  have h : xCohort.coverage_units_current =
      (⌊(xCohort.coverage_units_total : ℚ) *
        (xCohortDraws 0).remainingRatio⌋).toNat := rfl
  rw [h, xCohort_coverage_units_total]
  have h1 : ((12 : ℕ) : ℚ) * (xCohortDraws 0).remainingRatio = 228/25 := by
    norm_num [xCohortDraws]
  rw [h1]
  have h2 : ⌊(228 : ℚ)/25⌋ = 9 := by norm_num
  rw [h2]
  rfl

theorem xCohort_csm_amortization : xCohort.csm_amortization = 1/100 := by
  have h : xCohort.csm_amortization =
      if 0 < xCohort.coverage_units_total then
        rnd 100 (xCohort.initial_csm *
          ((xCohort.coverage_units_current : ℚ) /
            (xCohort.coverage_units_total : ℚ)) * (1/4))
      else 0 := rfl
  rw [h, xCohort_coverage_units_total, xCohort_coverage_units_current,
    xCohort_initial_csm, if_pos (by norm_num)]
  have h1 : (3:ℚ)/100 * (((9:ℕ) : ℚ) / ((12:ℕ) : ℚ)) * (1/4) = 9/1600 := by
    norm_num
  rw [h1, rnd, rhe]
  norm_num [Int.fract]

/-- C9 counterexample: with in-range draws, a cohort with initial CSM
0.03, 12 total and 9 current coverage units has csm_amortization
round(0.03 × 0.75 × 0.25, 2) = round(0.005625, 2) = 0.01, which EXCEEDS
0.25 × initial_csm = 0.0075 — the claimed upper bound fails after
rounding. -/
theorem amortization_exceeds_quarter_csm_counterexample :
    (xCohortDraws 0).Ok ∧
    xCohort ∈ generate_reserves xClaims xCohortDraws ∧
    xCohort.initial_csm = 3/100 ∧
    xCohort.csm_amortization = 1/100 ∧
    ¬(xCohort.csm_amortization ≤ xCohort.initial_csm * (1/4)) := by
  refine ⟨by norm_num [CohortDraws.Ok, xCohortDraws], xCohort_mem,
    xCohort_initial_csm, xCohort_csm_amortization, ?_⟩
  rw [xCohort_csm_amortization, xCohort_initial_csm]
  norm_num

end Actuarial

namespace Actuarial

/-- Two claims with the same accident date 2023-01-15 and report delays
of 2 and 5 days. -/
def vClaimDraws : ℕ → ClaimDraws :=
  fun i => ⟨1, 2023, 1, 15, if i = 0 then 2 else 5, 5000, 1, 1/2, .Motor, .CA⟩

/-- Witness instantiating the C3 development-month theorem on two
concrete claims sharing an accident date. -/
theorem claims_development_month_witness :
    (claimAt 1 2 vClaimDraws 0 (by norm_num)).development_month =
      max 1 ((((claimAt 1 2 vClaimDraws 0 (by norm_num)).report_date.year : ℤ) -
          ((claimAt 1 2 vClaimDraws 0 (by norm_num)).accident_date.year : ℤ)) * 12 +
        (((claimAt 1 2 vClaimDraws 0 (by norm_num)).report_date.month : ℤ) -
          ((claimAt 1 2 vClaimDraws 0 (by norm_num)).accident_date.month : ℤ)) + 1) ∧
    1 ≤ (claimAt 1 2 vClaimDraws 0 (by norm_num)).development_month ∧
    (claimAt 1 2 vClaimDraws 0 (by norm_num)).development_month ≤
      (claimAt 1 2 vClaimDraws 1 (by norm_num)).development_month :=
  claims_development_month 1 2 vClaimDraws 0 1 (by norm_num) (by norm_num)
    (by norm_num [ClaimDraws.Ok, vClaimDraws]) rfl rfl rfl (by decide)

/-- C3 counterexample: two generated claims with the same accident date
2023-01-15 and report delays 2 < 5 days both land in development month
1 — the development month does NOT strictly increase with report delay
(the month counter ignores the day of month). -/
theorem development_month_not_strict_counterexample :
    (mkClaim 1 (vClaimDraws 0)).accident_date =
      (mkClaim 2 (vClaimDraws 1)).accident_date ∧
    (vClaimDraws 0).reportDelay < (vClaimDraws 1).reportDelay ∧
    mkClaim 1 (vClaimDraws 0) ∈ generate_claims 1 2 vClaimDraws ∧
    mkClaim 2 (vClaimDraws 1) ∈ generate_claims 1 2 vClaimDraws ∧
    (mkClaim 1 (vClaimDraws 0)).development_month = 1 ∧
    (mkClaim 2 (vClaimDraws 1)).development_month = 1 := by
  have hl : generate_claims 1 2 vClaimDraws =
      [mkClaim 1 (vClaimDraws 0), mkClaim 2 (vClaimDraws 1)] := rfl
  refine ⟨rfl, by decide, ?_, ?_, by decide, by decide⟩
  · rw [hl]
    exact List.mem_cons_self _ _
  · rw [hl]
    exact List.mem_cons_of_mem _ (List.mem_cons_self _ _)

end Actuarial
